import Mathlib

set_option autoImplicit false
set_option linter.unusedVariables false

/-!
Verification development for the referenced-schema-object command engine
(`edb/schema/referencing.py`).  The Python source is shallowly embedded as
executable Lean definitions: schema objects become records, the immutable
schema snapshot becomes a list of records, delta commands become a small
command tree datatype, and the command-context stack becomes a list of
frames (innermost frame first).  Definitions follow the source function by
function; the few collaborators that live outside the embedded file
(`delta.py`, `inheriting.py`, `objects.py` helpers) are modelled from the
specification and marked as such in their doc comments.
-/

namespace Referencing

/-! ## Names

A schema name is either a plain fully-qualified name or a specialized
(mangled) name produced by `sn.get_specialized_name(base, referrer, *quals)`:
the mangled form remembers the short base name, the referrer name and the
qualifier strings, and `shortname_from_fullname` recovers the base. -/

inductive Name where
  | plain (module : String) (nm : String) : Name
  | specialized (module : String) (base : Name) (referrer : Name)
      (quals : List String) : Name
deriving DecidableEq, Repr

def Name.module : Name → String
  | .plain m _ => m
  | .specialized m _ _ _ => m

/-- Embeds `sn.shortname_from_fullname`: the short base name of a mangled
name, or the name itself when it is not mangled. -/
def shortname_from_fullname : Name → Name
  | .plain m n => .plain m n
  | .specialized _ b _ _ => b

/-- Embeds `sn.quals_from_fullname`. -/
def quals_from_fullname : Name → List String
  | .plain _ _ => []
  | .specialized _ _ _ q => q

/-- Embeds `ReferencedObjectCommand._classname_from_name`: rebuild the
fully-qualified ref name under a different referrer.  The default
`_classname_quals_from_name` hook in the source returns the empty tuple, so
no qualifiers are carried over. -/
def classname_from_name (name referrer_name : Name) : Name :=
  .specialized referrer_name.module (shortname_from_fullname name)
    referrer_name []

/-- Modelled from the spec: object collections are "an ordered mapping keyed
by a refname (a short, referrer-scoped key)" and expose
`get_key_for_name(schema, name)`; the key of a fully-qualified name is its
short name. -/
def get_key_for_name (n : Name) : Name := shortname_from_fullname n

/-! ## Objects and schemas

An `Obj` carries the fields and externally-supplied predicates
(`generic()`, `get_is_final()`, `allow_ref_propagation()`, ...) that the
engine reads through the interfaces of §6 of the spec.  A `Schema` is the
immutable snapshot: a list of objects looked up by name. -/

structure Obj where
  name : Name
  bases : List Name := []
  /-- Backref to the referrer (`get_subject` / `get_referrer`). -/
  subject : Option Name := none
  is_owned : Bool := false
  is_final : Bool := false
  is_derived : Bool := false
  /-- Whether the object is an `so.InheritingObject`. -/
  is_inheriting : Bool := false
  /-- Result of the external `generic(schema)` predicate. -/
  is_generic : Bool := false
  /-- Result of the external `allow_ref_propagation` predicate. -/
  allows_ref_propagation : Bool := true
  /-- Class-level `get_default_base_name()`. -/
  default_base_name : Option Name := none
  /-- RefDict collections: refdict attr ↦ ordered list of member names. -/
  refcolls : List (String × List Name) := []
  /-- Plain schema field values, for `inherit_fields`. -/
  fields : List (String × String) := []
deriving DecidableEq, Repr

structure Schema where
  objs : List Obj
deriving DecidableEq, Repr

def Schema.get (s : Schema) (n : Name) : Option Obj :=
  s.objs.find? (fun o => decide (o.name = n))

def Schema.modify (s : Schema) (n : Name) (f : Obj → Obj) : Schema :=
  ⟨s.objs.map (fun o => if o.name = n then f o else o)⟩

/-- Collection stored under a refdict attribute of an object. -/
def Obj.getcoll (o : Obj) (attr : String) : List Name :=
  (o.refcolls.lookup attr).getD []

def Obj.setcoll (o : Obj) (attr : String) (coll : List Name) : Obj :=
  if o.refcolls.any (fun p => p.1 == attr) then
    let updated := o.refcolls.map (fun p => if p.1 == attr then (attr, coll) else p)
    { o with refcolls := updated }
  else
    { o with refcolls := o.refcolls ++ [(attr, coll)] }

/-- Collection lookup by key (`coll.get(schema, refname, default=None)`). -/
def coll_get (s : Schema) (coll : List Name) (key : Name) : Option Obj :=
  match coll.find? (fun n => decide (get_key_for_name n = key)) with
  | some n => s.get n
  | none => none

/-- Modelled from the spec: `add_classref` mutation of the schema store. -/
def add_classref (s : Schema) (referrer : Name) (attr : String)
    (ref : Name) : Schema :=
  s.modify referrer (fun o => o.setcoll attr (o.getcoll attr ++ [ref]))

/-- Modelled from the spec: `del_classref` removes the member stored under
the given refname key from the referrer's collection. -/
def del_classref (s : Schema) (referrer : Name) (attr : String)
    (refname : Name) : Schema :=
  s.modify referrer (fun o => o.setcoll attr
    ((o.getcoll attr).filter (fun n => decide (get_key_for_name n ≠ refname))))

/-- Modelled from the spec: the external `children(schema)` traversal; a
child is any object listing the referrer among its bases. -/
def Schema.children (s : Schema) (referrer : Obj) : List Obj :=
  s.objs.filter (fun o => decide (referrer.name ∈ o.bases))

/-! ## Errors

The error taxonomy of §7 of the spec.  `invariantViolation` models the
internal (not user-visible) errors the source raises for broken
preconditions, such as the plain `RuntimeError` in
`get_referrer_context_or_die`. -/

inductive Err where
  | schemaError (msg : String) (parents : List Name)
  | schemaDefinitionError (msg : String) (offenders : List Name)
  | invalidDefinitionError (msg : String)
  | invariantViolation (msg : String)
deriving DecidableEq, Repr

/-! ## Commands

One node of the delta tree.  All command kinds share the record shape; the
struct fields (`if_exists`, `implicit`, `added_bases`, ...) that exist only
on some Python classes simply stay at their defaults elsewhere. -/

inductive CmdKind where
  | create | alter | delete | rebase | rename | alter_owned
deriving DecidableEq, Repr

inductive AttrVal where
  | name (n : Name)
  | bool (b : Bool)
  | str (s : String)
  | names (ns : List Name)
deriving DecidableEq, Repr

inductive Cmd where
  | mk (kind : CmdKind) (classname : Name)
      (if_exists if_not_exists implicit ref_op_propagated : Bool)
      (added_bases removed_bases : List Name)
      (attrs : List (String × AttrVal))
      (subs : List Cmd) : Cmd

def Cmd.kind : Cmd → CmdKind
  | .mk k _ _ _ _ _ _ _ _ _ => k

def Cmd.classname : Cmd → Name
  | .mk _ c _ _ _ _ _ _ _ _ => c

def Cmd.if_exists : Cmd → Bool
  | .mk _ _ e _ _ _ _ _ _ _ => e

def Cmd.if_not_exists : Cmd → Bool
  | .mk _ _ _ ne _ _ _ _ _ _ => ne

def Cmd.implicit : Cmd → Bool
  | .mk _ _ _ _ i _ _ _ _ _ => i

def Cmd.ref_op_propagated : Cmd → Bool
  | .mk _ _ _ _ _ rp _ _ _ _ => rp

def Cmd.added_bases : Cmd → List Name
  | .mk _ _ _ _ _ _ ab _ _ _ => ab

def Cmd.removed_bases : Cmd → List Name
  | .mk _ _ _ _ _ _ _ rb _ _ => rb

def Cmd.attrs : Cmd → List (String × AttrVal)
  | .mk _ _ _ _ _ _ _ _ a _ => a

def Cmd.subs : Cmd → List Cmd
  | .mk _ _ _ _ _ _ _ _ _ s => s

instance : Inhabited Cmd :=
  ⟨.mk .create (.plain "" "") false false false false [] [] [] []⟩

/-- Plain command node with everything at its default. -/
def Cmd.simple (kind : CmdKind) (classname : Name) : Cmd :=
  .mk kind classname false false false false [] [] [] []

/-- Embeds `Command.get_attribute_value`. -/
def Cmd.get_attribute_value (c : Cmd) (a : String) : Option AttrVal :=
  c.attrs.lookup a

def set_attr_list (attrs : List (String × AttrVal)) (a : String)
    (v : AttrVal) : List (String × AttrVal) :=
  if attrs.any (fun p => p.1 == a) then
    attrs.map (fun p => if p.1 == a then (a, v) else p)
  else
    attrs ++ [(a, v)]

/-- Embeds `Command.set_attribute_value`. -/
def Cmd.set_attribute_value (c : Cmd) (a : String) (v : AttrVal) : Cmd :=
  match c with
  | .mk k cn e ne i rp ab rb attrs subs =>
      .mk k cn e ne i rp ab rb (set_attr_list attrs a v) subs

/-- Embeds `Command.add`: append a subcommand. -/
def Cmd.add (c sub : Cmd) : Cmd :=
  match c with
  | .mk k cn e ne i rp ab rb attrs subs =>
      .mk k cn e ne i rp ab rb attrs (subs ++ [sub])

/-! ## Command context

A `Frame` is one entry of the `CommandContext` stack; the innermost frame
comes first in `Context.stack`.  The per-frame data the embedded functions
read is: the context class tag (for referrer-context lookup), the command
class tag and current object (for the delete-dependency scan), and the
`ReferencedInheritingObjectCommand.ref_op_propagated` struct field. -/

structure Frame where
  ctx_class : String := ""
  op_class : String := ""
  op_scls : Option Name := none
  op_is_referenced_inheriting : Bool := false
  ref_op_propagated : Bool := false
deriving DecidableEq, Repr

structure Context where
  canonical : Bool := false
  declarative : Bool := false
  enable_recursion : Bool := false
  disable_dep_verification : Bool := false
  /-- Result of `context.in_deletion(offset=1)` (delta.py, external). -/
  in_deletion_offset1 : Bool := false
  renamed_objs : List Name := []
  stack : List Frame := []
deriving DecidableEq, Repr

/-- Modelled from the spec: `CommandContext.get(ctxcls)` (delta.py, not under
src/) "returns the innermost matching frame or null"; the stack here lists
the innermost frame first. -/
def Context.get (ctx : Context) (ctxcls : String) : Option Frame :=
  ctx.stack.find? (fun f => f.ctx_class == ctxcls)

/-- Embeds `ReferencedObjectCommandBase.get_referrer_context`. -/
def get_referrer_context (referrer_context_class : String)
    (ctx : Context) : Option Frame :=
  ctx.get referrer_context_class

/-- Embeds `ReferencedObjectCommandBase.get_referrer_context_or_die`; the
source raises a plain `RuntimeError`, the spec's name for this internal
error class is `InvariantViolation`. -/
def get_referrer_context_or_die (referrer_context_class : String)
    (ctx : Context) : Except Err Frame :=
  match get_referrer_context referrer_context_class ctx with
  | some f => .ok f
  | none => .error (.invariantViolation "no referrer context")

/-! ## Implicit-base resolver and base deltas -/

/-- Embeds `ReferencedInheritingObjectCommand._get_implicit_ref_bases`:
walk the referrer's bases in order, look each base's collection up under the
child-local mangled name, and keep every hit that is not final. -/
def get_implicit_ref_bases (s : Schema) (referrer : Obj)
    (referrer_field : String) (fq_name : Name) : List Obj :=
  let child_referrer_bases := referrer.bases.filterMap s.get
  child_referrer_bases.filterMap (fun ref_base =>
    let fq_name_in_child := classname_from_name fq_name ref_base.name
    let refname := get_key_for_name fq_name_in_child
    let parent_coll := ref_base.getcoll referrer_field
    match coll_get s parent_coll refname with
    | some parent_item =>
        if parent_item.is_final then none else some parent_item
    | none => none)

/-- Embeds the `ReferencedInheritingObject.get_implicit_bases` method: the
non-generic bases of the object. -/
def Obj.implicit_bases_of (s : Schema) (o : Obj) : List Obj :=
  (o.bases.filterMap s.get).filter (fun b => !b.is_generic)

/-- Modelled from the spec: `inheriting.delta_bases` (inheriting.py, not
under src/) "returns the minimum edit to transform current into target
preserving order"; rendered as (removed, added) name lists. -/
def delta_bases (current target : List Name) : List Name × List Name :=
  (current.filter (fun b => decide (b ∉ target)),
   target.filter (fun b => decide (b ∉ current)))

/-- Explicit bases retained by `get_ref_implicit_base_delta`: the current
bases that are generic and whose name differs from the class's default base
name. -/
def ref_explicit_bases (s : Schema) (refcls : Obj) : List Obj :=
  (refcls.bases.filterMap s.get).filter
    (fun b => b.is_generic && decide (some b.name ≠ refcls.default_base_name))

/-- Embeds `ReferencedInheritingObjectCommand.get_ref_implicit_base_delta`. -/
def get_ref_implicit_base_delta (s : Schema) (refcls : Obj)
    (implicit_bases : List Obj) : List Name × List Name :=
  let child_bases := refcls.bases.filterMap s.get
  let new_bases := implicit_bases ++ ref_explicit_bases s refcls
  delta_bases (child_bases.map (·.name)) (new_bases.map (·.name))

/-! ## Create engine -/

/-- Embeds the pre-`super()` block of
`CreateReferencedInheritingObject._create_begin`: the value of the command's
`bases` attribute after the implicit-base computation.  `referrer_ctx` is
the enclosing referrer frame's current object, if any; `bases0` is the
previously-set `bases` attribute of the command (`none` when unset). -/
def create_begin_bases (s : Schema) (ctx : Context)
    (referrer_ctx : Option Obj) (refdict_attr : String) (classname : Name)
    (bases0 : Option (List Name)) : Option (List Name) :=
  match referrer_ctx with
  | none => bases0
  | some referrer =>
      if ctx.canonical then bases0
      else if referrer.is_inheriting then
        let implicit_bases :=
          get_implicit_ref_bases s referrer refdict_attr classname
        if implicit_bases.isEmpty then bases0
        else
          let ib_names := implicit_bases.map (·.name)
          match bases0 with
          | some bs =>
              if bs.isEmpty then some ib_names
              else some (ib_names ++ bs.filter (fun b => decide (b ∉ ib_names)))
          | none => some ib_names
      else bases0

/-- RefDict descriptor (objects.py); only the fields the engine reads. -/
structure RefDict where
  attr : String
  backref_attr : String
  requires_explicit_overloaded : Bool := false
deriving DecidableEq, Repr

def must_overloaded_msg : String :=
  "must be declared using the `overloaded` keyword because it is defined in the following ancestor(s)"

def no_ancestors_overloaded_msg : String :=
  "cannot be declared `overloaded` as there are no ancestors defining it."

/-- Embeds `ReferencedInheritingObjectCommand._validate`.
`declared_overloaded` is the command's `declared_overloaded` attribute value
(`none` when unset, which is falsy in the source). -/
def validate_overloaded (s : Schema) (ctx : Context) (scls : Obj)
    (refdict : RefDict) (declared_overloaded : Option Bool) :
    Except Err Unit :=
  let implicit_bases := (scls.bases.filterMap s.get).filter (fun b => !b.is_generic)
  if ctx.declarative && scls.is_owned then
    if !implicit_bases.isEmpty && refdict.requires_explicit_overloaded
        && !(declared_overloaded.getD false) then
      .error (.schemaDefinitionError must_overloaded_msg
        (implicit_bases.filterMap (·.subject)))
    else if implicit_bases.isEmpty && (declared_overloaded.getD false) then
      .error (.schemaDefinitionError no_ancestors_overloaded_msg [])
    else
      .ok ()
  else
    .ok ()

/-- Embeds `CreateReferencedObject.as_inherited_ref_cmd`: builds the create
command for an inherited ref and sets only its `name` attribute; the
`parents` argument is accepted but not used by this base implementation. -/
def as_inherited_ref_cmd (classname : Name) (parents : List Name) : Cmd :=
  (Cmd.simple .create classname).set_attribute_value "name" (.name classname)

/-- The per-child command group synthesized by
`CreateReferencedInheritingObject._propagate_ref_creation`:
an `AlterObject(child)` holding, in order, a conditional alter wrapping an
implicit rebase, then a conditional create. -/
def propagated_child_cmd (scls : Obj) (refdict : RefDict) (child : Obj) : Cmd :=
  let parent_fq_refname := scls.name
  -- `as_inherited_ref_ast` reduces the ref name to its short form and
  -- `_classname_from_ast`, evaluated inside the child's alter context,
  -- re-specializes it under the child referrer.
  let fq_name := classname_from_name parent_fq_refname child.name
  let ref_create0 := as_inherited_ref_cmd fq_name [scls.name]
  let ref_create1 :=
    match ref_create0 with
    | .mk k cn _ _ i rp ab rb attrs subs => Cmd.mk k cn false true i rp ab rb attrs subs
  let ref_create2 := ref_create1.set_attribute_value refdict.backref_attr (.name child.name)
  let ref_create :=
    if child.is_derived then
      ref_create2.set_attribute_value "is_derived" (.bool true)
    else ref_create2
  let ref_rebase := Cmd.mk .rebase fq_name false false true false [] [] [] []
  let ref_alter := Cmd.mk .alter fq_name true false false false [] [] [] [ref_rebase]
  ((Cmd.simple .alter child.name).add ref_alter).add ref_create

/-- Embeds `CreateReferencedInheritingObject._propagate_ref_creation`: one
command group per child of the referrer that permits ref propagation. -/
def propagate_ref_creation (s : Schema) (scls : Obj) (referrer : Obj)
    (refdict : RefDict) : List Cmd :=
  (s.children referrer).filterMap (fun child =>
    if !child.allows_ref_propagation then none
    else some (propagated_child_cmd scls refdict child))

/-- Embeds `CreateReferencedInheritingObject._create_ref`: add the new ref
to the referrer's collection, then propagate creation to descendants when
the ref is not final, the referrer is inheriting, the context is not
canonical and recursion is enabled. -/
def create_ref (s : Schema) (ctx : Context) (scls : Obj) (referrer : Obj)
    (refdict : RefDict) : Schema × List Cmd :=
  let s1 := add_classref s referrer.name refdict.attr scls.name
  if !scls.is_final && referrer.is_inheriting && !ctx.canonical
      && ctx.enable_recursion then
    (s1, propagate_ref_creation s1 scls referrer refdict)
  else
    (s1, [])

/-! ## Delete engine -/

def cannot_drop_inherited_msg : String := "cannot drop inherited"

/-- Modelled from the spec: applying a `RebaseInheritingObject` performs
"the generic rebase" (inheriting.py, not under src/): drop the removed
bases, append the added ones.  A subcommand of any other kind does not
rebase anything. -/
def apply_rebase_sub (s : Schema) (sub : Cmd) : Schema :=
  if sub.kind = .rebase then
    s.modify sub.classname (fun o =>
      { o with bases :=
          o.bases.filter (fun b => decide (b ∉ sub.removed_bases)) ++ sub.added_bases })
  else s

/-- Application of the command synthesized by `_propagate_ref_deletion`
("apply immediately to produce the schema for the next child"): a delete
removes the child ref from the schema and from the child's collection; an
alter applies its subcommands. -/
def apply_propagated_deletion_cmd (s : Schema) (child : Obj)
    (refdict : RefDict) (cmd : Cmd) : Schema :=
  match cmd.kind with
  | .delete =>
      let s1 : Schema := ⟨s.objs.filter (fun o => decide (o.name ≠ cmd.classname))⟩
      del_classref s1 child.name refdict.attr (get_key_for_name cmd.classname)
  | .alter => cmd.subs.foldl (fun acc sub => apply_rebase_sub acc sub) s
  | _ => s

/-- Embeds `DeleteReferencedInheritingObject._propagate_ref_deletion`.  Note
that the source builds the inner base-delta command with
`child_ref.init_delta_command(schema, sd.AlterObject, added_bases=...,
removed_bases=...)`, i.e. as an `AlterObject` and not as a
`RebaseInheritingObject`; the embedding renders that command kind
faithfully. -/
def propagate_ref_deletion (s : Schema) (ctx : Context) (refdict : RefDict)
    (child : Obj) (child_ref : Obj) : Schema × Cmd :=
  let name := child_ref.name
  let implicit_bases := get_implicit_ref_bases s child refdict.attr name
  let cmd : Cmd :=
    if child_ref.is_owned || !implicit_bases.isEmpty then
      let d := get_ref_implicit_base_delta s child_ref implicit_bases
      let rebase_cmd := Cmd.mk .alter name false false false false d.2 d.1 [] []
      (Cmd.simple .alter name).add rebase_cmd
    else
      Cmd.simple .delete name
  (apply_propagated_deletion_cmd s child refdict cmd, cmd)

/-- The dependency-verification step of
`DeleteReferencedInheritingObject._delete_ref`: compute the implicit bases,
subtract those whose delete commands appear on the context stack (the
`isinstance(ctx.op, type(self))` scan, via the `self_class` tag), and fail
when the remainder is non-empty. -/
def delete_dep_check (s1 : Schema) (ctx : Context) (self_class : String)
    (refdict : RefDict) (referrer : Obj) (self_name : Name) :
    Except Err Unit :=
  if !ctx.in_deletion_offset1 && !ctx.disable_dep_verification then
    let implicit_bases :=
      get_implicit_ref_bases s1 referrer refdict.attr self_name
    let deleted_bases : List Name :=
      (ctx.stack.filter (fun f => f.op_class == self_class)).filterMap (fun f => f.op_scls)
    let remaining :=
      implicit_bases.filter (fun b => decide (b.name ∉ deleted_bases))
    if !remaining.isEmpty then
      .error (.schemaError cannot_drop_inherited_msg
        (remaining.filterMap (·.subject)))
    else .ok ()
  else .ok ()

/-- One iteration of the per-child propagation loop of `_delete_ref`. -/
def delete_child_step (ctx : Context) (refdict : RefDict) (self_name : Name)
    (acc : Schema × List Cmd) (child0 : Obj) : Schema × List Cmd :=
  match acc.1.get child0.name with
  | none => acc
  | some child =>
      let child_coll := child.getcoll refdict.attr
      let fq_refname_in_child := classname_from_name self_name child.name
      let child_refname := get_key_for_name fq_refname_in_child
      match coll_get acc.1 child_coll child_refname with
      | none => acc
      | some existing =>
          let r := propagate_ref_deletion acc.1 ctx refdict child existing
          (r.1, acc.2 ++ [(Cmd.simple .alter child.name).add r.2])

/-- Embeds `DeleteReferencedInheritingObject._delete_ref`.  `self_class` is
the concrete delete-command class tag used by the stack scan. -/
def delete_ref (s : Schema) (ctx : Context) (self_class : String)
    (refdict : RefDict) (referrer : Obj) (scls : Obj) :
    Except Err (Schema × List Cmd) :=
  let refname := get_key_for_name scls.name
  let self_name := scls.name
  let s1 := del_classref s referrer.name refdict.attr refname
  if referrer.is_inheriting && !ctx.canonical then
    match delete_dep_check s1 ctx self_class refdict referrer self_name with
    | .error e => .error e
    | .ok _ =>
        .ok ((s1.children referrer).foldl
          (delete_child_step ctx refdict self_name) (s1, []))
  else
    .ok (s1, [])

/-- Embeds the context construction of `ReferencedObject.delete`: the
convenience entry point builds its command context with
`disable_dep_verification=True`. -/
def referenced_object_delete_context : Context :=
  { disable_dep_verification := true }

/-! ## Rename engine -/

def cannot_rename_inherited_msg : String := "cannot rename inherited"

/-- The command group `_propagate_ref_op` synthesizes per descendant, with
the rename callback of `_propagate_ref_rename` already added: an alter of
the descendant's referrer wrapping an alter of the descendant (marked
`ref_op_propagated`) wrapping a rename to the new short name. -/
def rename_descendant_cmd (new_refname : Name) (d : Obj)
    (d_referrer_name : Name) : Cmd :=
  let rename_cmd :=
    (Cmd.simple .rename d.name).set_attribute_value "new_name" (.name new_refname)
  let d_alter := Cmd.mk .alter d.name false false false true [] [] [] [rename_cmd]
  (Cmd.simple .alter d_referrer_name).add d_alter

/-- Embeds `ReferencedInheritingObjectCommand._propagate_ref_op` (with the
rename callback): nothing is emitted when some frame on the stack belongs
to a referenced-inheriting command already marked `ref_op_propagated`;
otherwise one command group per ordered descendant.  `descendants` is the
result of the external `ordered_descendants(schema)` traversal. -/
def propagate_ref_op_rename (s : Schema) (ctx : Context)
    (descendants : List Obj) (new_refname : Name) : List Cmd :=
  if ctx.stack.any (fun f => f.op_is_referenced_inheriting && f.ref_op_propagated)
  then []
  else
    descendants.filterMap (fun d =>
      match d.subject.bind s.get with
      | some d_referrer => some (rename_descendant_cmd new_refname d d_referrer.name)
      | none => none)

/-- Embeds `RenameReferencedInheritingObject._rename_begin` after the
generic rename: `scls` is the already-renamed object, `s` the schema after
the generic rename; returns the propagation command groups. -/
def rename_begin (s : Schema) (ctx : Context) (scls : Obj)
    (descendants : List Obj) : Except Err (List Cmd) :=
  if !ctx.canonical && !scls.is_generic then
    let implicit_bases := Obj.implicit_bases_of s scls
    let non_renamed_bases :=
      implicit_bases.filter (fun b => decide (b.name ∉ ctx.renamed_objs))
    if !non_renamed_bases.isEmpty then
      .error (.schemaDefinitionError cannot_rename_inherited_msg
        (non_renamed_bases.map (·.name)))
    else
      .ok (propagate_ref_op_rename s ctx descendants (get_key_for_name scls.name))
  else
    .ok []

/-! ## AlterOwned engine -/

def cannot_drop_owned_msg : String :=
  "cannot drop owned, as it is not inherited, use DROP instead"

/-- Modelled from the spec: the per-field inherited values — for each field
the value from the first base (in order) that defines it. -/
def inherited_fields (bases : List Obj) : List (String × String) :=
  ((bases.map (·.fields)).flatten).foldl
    (fun acc p => if acc.any (fun q => q.1 == p.1) then acc else acc ++ [p]) []

/-- Modelled from the spec: `inherit_fields` (inheriting.py, not under
src/) re-inherits every field value from `bases`; with `ignore_local` set,
locally-set values are discarded in favor of the inherited ones. -/
def inherit_fields (s : Schema) (scls_name : Name) (bases : List Obj)
    (ignore_local : Bool) : Schema :=
  let inh := inherited_fields bases
  s.modify scls_name (fun o =>
    if ignore_local then { o with fields := inh }
    else
      let merged := inh.map (fun p =>
        match o.fields.lookup p.1 with
        | some v => (p.1, v)
        | none => p)
      let extra := o.fields.filter (fun q => !(inh.any (fun p => p.1 == q.1)))
      { o with fields := merged ++ extra })

/-- Application of the nested `AlterObject + AlterOwned(is_owned := False)`
that `_drop_owned_refs` applies immediately: the generic alter flips
`is_owned` and `AlterOwned._alter_begin` re-inherits the sub-ref's fields
from its bases (the branch guarantees the sub-ref has implicit bases, so
the error path is unreachable there; the sub-ref's own nested refdicts are
empty for the objects these claims range over). -/
def apply_drop_owned (s : Schema) (nm : Name) : Schema :=
  match s.get nm with
  | none => s
  | some ref =>
      let bases := ref.bases.filterMap s.get
      let s1 := inherit_fields s nm bases true
      s1.modify nm (fun o => { o with is_owned := false })

/-- One iteration of the `_drop_owned_refs` loop over a collection entry. -/
def drop_owned_step (acc : Schema × List Cmd) (ref_name : Name) :
    Schema × List Cmd :=
  match acc.1.get ref_name with
  | none => acc
  | some ref =>
      let inherited := Obj.implicit_bases_of acc.1 ref
      if !inherited.isEmpty && ref.is_owned then
        let dr :=
          (Cmd.simple .alter_owned ref.name).set_attribute_value
            "is_owned" (.bool false)
        let alter := (Cmd.simple .alter ref.name).add dr
        (apply_drop_owned acc.1 ref.name, acc.2 ++ [alter])
      else
        (acc.1, acc.2 ++ [Cmd.simple .delete ref.name])

/-- Embeds `ReferencedInheritingObjectCommand._drop_owned_refs`: walk the
collection; a sub-ref that is inherited and owned gets an alter wrapping a
nested `AlterOwned(is_owned := False)` which is applied immediately; any
other sub-ref gets a `DeleteObject` (which the source does not apply
here). -/
def drop_owned_refs (s : Schema) (scls_name : Name) (attr : String) :
    Schema × List Cmd :=
  match s.get scls_name with
  | none => (s, [])
  | some scls => (scls.getcoll attr).foldl drop_owned_step (s, [])

/-- One iteration of the per-RefDict loop of `AlterOwned._alter_begin`. -/
def drop_attr_step (scls_name : Name) (acc : Schema × List Cmd)
    (attr : String) : Schema × List Cmd :=
  let r := drop_owned_refs acc.1 scls_name attr
  (r.1, acc.2 ++ r.2)

/-- Embeds `AlterOwned._alter_begin` after the generic alter: `s` is the
schema in which `is_owned` has already been flipped to `owned`;
`refdict_attrs` enumerates the RefDicts declared by the object's class. -/
def alter_owned_begin (s : Schema) (ctx : Context) (scls_name : Name)
    (orig_owned owned : Bool) (refdict_attrs : List String) :
    Except Err (Schema × List Cmd) :=
  if orig_owned != owned && !owned && !ctx.canonical then
    match s.get scls_name with
    | none => .ok (s, [])
    | some scls =>
        let implicit_bases := Obj.implicit_bases_of s scls
        if implicit_bases.isEmpty then
          .error (.invalidDefinitionError cannot_drop_owned_msg)
        else
          let bases := scls.bases.filterMap s.get
          let s1 := inherit_fields s scls_name bases true
          .ok (refdict_attrs.foldl (drop_attr_step scls_name) (s1, []))
  else
    .ok (s, [])

/-- The decision `_drop_owned_refs` takes for one sub-ref name: `none` when
the name does not resolve, otherwise whether the sub-ref is both inherited
(non-empty implicit bases) and owned. -/
def drop_decision (s : Schema) (rn : Name) : Option Bool :=
  (s.get rn).map (fun ref => !(Obj.implicit_bases_of s ref).isEmpty && ref.is_owned)

/-- The command `_drop_owned_refs` emits for one sub-ref name, per the
spec's §4.11 clause: inherited-and-owned sub-refs get an alter wrapping a
nested `AlterOwned(false)`, every other sub-ref a `DeleteObject`. -/
def drop_cmd_of (s : Schema) (rn : Name) : Option Cmd :=
  match drop_decision s rn with
  | none => none
  | some true => some ((Cmd.simple .alter rn).add
      ((Cmd.simple .alter_owned rn).set_attribute_value "is_owned" (.bool false)))
  | some false => some (Cmd.simple .delete rn)

/-! ## Sample universe

Small concrete schemas used by the witnesses and counterexamples below.
`g` is a generic root ref, `A` a referrer owning a ref specialized from
`g`, and `B` a child referrer of `A`. -/

def gName : Name := .plain "m" "l"

def aName : Name := .plain "m" "A"

def bName : Name := .plain "m" "B"

def laName : Name := classname_from_name gName aName

def lbName : Name := classname_from_name gName bName

def gObj : Obj := { name := gName, is_generic := true, is_inheriting := true }

def aObj : Obj :=
  { name := aName, is_inheriting := true, refcolls := [("links", [laName])] }

def laObj : Obj :=
  { name := laName, subject := some aName, bases := [gName], is_owned := true }

def bObj : Obj := { name := bName, bases := [aName], is_inheriting := true }

def baseSchema : Schema := ⟨[gObj, aObj, laObj, bObj]⟩

/-! ## C1 -/

/-! ## Sample objects and schemas used by witnesses and counterexamples -/

/-- A second referrer setup for the C7 witness: a RefDict that requires
explicit overloads, and a ref on `B` overloading `A.l` without
`declared_overloaded`. -/
def strictRefdict : RefDict :=
  { attr := "links", backref_attr := "source", requires_explicit_overloaded := true }

def lbOwnedNoDecl : Obj :=
  { name := lbName, subject := some bName, bases := [laName], is_owned := true }

/-- Sample for the C10 witness: a ref whose sole current base is its
class's default base. -/
def defName : Name := .plain "std" "link"

def defObj : Obj := { name := defName, is_generic := true }

def c10Ref : Obj :=
  { name := laName, subject := some aName, bases := [defName],
    default_base_name := some defName }

def c10Schema : Schema := ⟨[defObj, c10Ref]⟩

/-- The inherited-dependency remainder `_delete_ref` checks: the implicit
bases of the deleted ref (computed after its removal from the referrer's
collection) minus those whose delete commands sit on the context stack. -/
def remaining_implicit_bases (s : Schema) (ctx : Context) (self_class : String)
    (refdict : RefDict) (referrer : Obj) (scls : Obj) : List Obj :=
  let s1 := del_classref s referrer.name refdict.attr (get_key_for_name scls.name)
  let implicit_bases := get_implicit_ref_bases s1 referrer refdict.attr scls.name
  let deleted_bases : List Name :=
    (ctx.stack.filter (fun f => f.op_class == self_class)).filterMap (fun f => f.op_scls)
  implicit_bases.filter (fun b => decide (b.name ∉ deleted_bases))

def linksRefdict : RefDict := { attr := "links", backref_attr := "source" }

def bObjFull : Obj :=
  { name := bName, bases := [aName], is_inheriting := true,
    refcolls := [("links", [lbName])] }

def lbObj : Obj := { name := lbName, subject := some bName, bases := [laName] }

def fullSchema : Schema := ⟨[gObj, aObj, laObj, bObjFull, lbObj]⟩

/-- `A` after its ref was already removed from the collection (mid-delete),
while the object list still carries `A.l`. -/
def aObjDel : Obj :=
  { name := aName, is_inheriting := true, refcolls := [("links", [])] }

def lbOwnedObj : Obj :=
  { name := lbName, subject := some bName, bases := [laName], is_owned := true }

def bObjOwned : Obj :=
  { name := bName, bases := [aName], is_inheriting := true,
    refcolls := [("links", [lbName])] }

def delSchema : Schema := ⟨[gObj, aObjDel, laObj, bObjOwned, lbOwnedObj]⟩

def aObjEmpty : Obj :=
  { name := aName, is_inheriting := true, refcolls := [("links", [])] }

def c3Schema : Schema := ⟨[gObj, aObjEmpty, laObj, bObj]⟩

def c3Ctx : Context := { enable_recursion := true }

def cName : Name := .plain "m" "C"

def lcName : Name := classname_from_name gName cName

def cObj : Obj :=
  { name := cName, bases := [bName], is_inheriting := true,
    refcolls := [("links", [lcName])] }

def lcObj : Obj := { name := lcName, subject := some cName, bases := [lbName] }

def renSchema : Schema := ⟨[gObj, aObj, laObj, bObjFull, lbObj, cObj, lcObj]⟩

def propFrame : Frame :=
  { op_is_referenced_inheriting := true, ref_op_propagated := true }

def propCtx : Context := { stack := [propFrame] }

/-- A freshly renamed ref on `B` whose only base is generic, so the
rename passes the inherited check. -/
def c5Scls : Obj :=
  { name := classname_from_name (Name.plain "m" "l2") bName,
    subject := some bName, bases := [gName], is_owned := true }

def obj_shape (o : Obj) : Name × List Name × Bool × List (String × List Name) :=
  (o.name, o.bases, o.is_generic, o.refcolls)

def paName : Name := .plain "m" "pA"

def pbName : Name := .plain "m" "pB"

def k0Name : Name := .plain "m" "k0"

def k1Name : Name := .plain "m" "k1"

def k2Name : Name := .plain "m" "k2"

def paObj : Obj :=
  { name := paName, subject := some aName, is_owned := true,
    fields := [("f", "inh")] }

/-- An owned overload of `A.pA` on `B`, carrying two sub-refs: `k1`
(inherited and owned) and `k2` (purely local). -/
def pbObj : Obj :=
  { name := pbName, subject := some bName, bases := [paName],
    fields := [("f", "local")],
    refcolls := [("constraints", [k1Name, k2Name])] }

def k0Obj : Obj := { name := k0Name }

def k1Obj : Obj :=
  { name := k1Name, subject := some pbName, bases := [k0Name],
    is_owned := true }

def k2Obj : Obj :=
  { name := k2Name, subject := some pbName, is_owned := true }

def c6Schema : Schema := ⟨[paObj, pbObj, k0Obj, k1Obj, k2Obj]⟩

/-- C1: for a creation executed inside a referrer context with
`context.canonical` false, where the referrer is an inheriting object:
when the implicit-base computation is non-empty, the command's resulting
`bases` attribute equals the implicit bases (in referrer-base order)
followed by the previously-set bases that are not implicit bases; when no
implicit bases exist, the `bases` attribute is left unchanged. -/
theorem C1_create_begin_bases (s : Schema) (ctx : Context) (referrer : Obj)
    (attr : String) (classname : Name) (bases0 : Option (List Name))
    (hcanon : ctx.canonical = false) (hinh : referrer.is_inheriting = true) :
    (get_implicit_ref_bases s referrer attr classname ≠ [] →
      create_begin_bases s ctx (some referrer) attr classname bases0 =
        some ((get_implicit_ref_bases s referrer attr classname).map (·.name) ++
          (bases0.getD []).filter (fun b =>
            decide (b ∉ (get_implicit_ref_bases s referrer attr classname).map (·.name))))) ∧
    (get_implicit_ref_bases s referrer attr classname = [] →
      create_begin_bases s ctx (some referrer) attr classname bases0 = bases0) := by
  constructor
  · intro hne
    simp only [create_begin_bases, hcanon, hinh, Bool.false_eq_true, if_false, if_true,
      List.isEmpty_eq_true]
    rw [if_neg hne]
    cases bases0 with
    | none => simp
    | some bs =>
        cases bs with
        | nil => simp
        | cons hd tl => simp
  · intro hnil
    simp [create_begin_bases, hcanon, hinh, hnil]

/-- C1 witness: creating a ref on referrer `B` (child of `A`, which carries
`A.l`) with explicit bases `[g]` yields implicit bases `[A.l]` followed by
the explicit base `g`. -/
theorem C1_witness :
    get_implicit_ref_bases baseSchema bObj "links" lbName ≠ [] ∧
    create_begin_bases baseSchema {} (some bObj) "links" lbName (some [gName]) =
      some ((get_implicit_ref_bases baseSchema bObj "links" lbName).map (·.name) ++
        ([gName].filter (fun b =>
          decide (b ∉ (get_implicit_ref_bases baseSchema bObj "links" lbName).map (·.name))))) :=
  ⟨by decide,
   (C1_create_begin_bases baseSchema {} bObj "links" lbName (some [gName])
      rfl rfl).1 (by decide)⟩

/-! ## C7 -/

/-- C7: for an owned create or re-own validated with `context.declarative`
true and `is_owned` true: an overload declared without the `overloaded`
keyword fails when the object has non-generic bases and the RefDict
requires explicit overloads; `declared_overloaded` without non-generic
bases fails with the no-ancestors error; every other combination passes. -/
theorem C7_validate_overloaded (s : Schema) (ctx : Context) (scls : Obj)
    (refdict : RefDict) (declared : Option Bool)
    (hdecl : ctx.declarative = true) (howned : scls.is_owned = true) :
    ((scls.bases.filterMap s.get).filter (fun b => !b.is_generic) ≠ [] ∧
        refdict.requires_explicit_overloaded = true ∧ declared.getD false = false →
      validate_overloaded s ctx scls refdict declared =
        .error (.schemaDefinitionError must_overloaded_msg
          (((scls.bases.filterMap s.get).filter (fun b => !b.is_generic)).filterMap
            (·.subject)))) ∧
    ((scls.bases.filterMap s.get).filter (fun b => !b.is_generic) = [] ∧
        declared.getD false = true →
      validate_overloaded s ctx scls refdict declared =
        .error (.schemaDefinitionError no_ancestors_overloaded_msg [])) ∧
    (¬((scls.bases.filterMap s.get).filter (fun b => !b.is_generic) ≠ [] ∧
        refdict.requires_explicit_overloaded = true ∧ declared.getD false = false) →
     ¬((scls.bases.filterMap s.get).filter (fun b => !b.is_generic) = [] ∧
        declared.getD false = true) →
      validate_overloaded s ctx scls refdict declared = .ok ()) := by
  refine ⟨?_, ?_, ?_⟩
  · rintro ⟨h1, h2, h3⟩
    have h1e : ((scls.bases.filterMap s.get).filter (fun b => !b.is_generic)).isEmpty
        = false := by rw [List.isEmpty_eq_false]; exact h1
    simp [validate_overloaded, hdecl, howned, h1e, h2, h3]
  · rintro ⟨h1, h2⟩
    have h1e : ((scls.bases.filterMap s.get).filter (fun b => !b.is_generic)).isEmpty
        = true := by simp [List.isEmpty_iff, h1]
    simp [validate_overloaded, hdecl, howned, h1e, h2]
  · intro h1 h2
    by_cases he : (scls.bases.filterMap s.get).filter (fun b => !b.is_generic) = []
    · have h1e : ((scls.bases.filterMap s.get).filter (fun b => !b.is_generic)).isEmpty
          = true := by simp [List.isEmpty_iff, he]
      have hd : declared.getD false = false := by
        by_contra hc
        exact h2 ⟨he, by simpa using hc⟩
      simp [validate_overloaded, hdecl, howned, h1e, hd]
    · have h1e : ((scls.bases.filterMap s.get).filter (fun b => !b.is_generic)).isEmpty
          = false := by rw [List.isEmpty_eq_false]; exact he
      by_cases hr : refdict.requires_explicit_overloaded = true
      · have hd : declared.getD false = true := by
          by_contra hc
          exact h1 ⟨he, hr, by simpa using hc⟩
        simp [validate_overloaded, hdecl, howned, h1e, hr, hd]
      · simp only [Bool.not_eq_true] at hr
        simp [validate_overloaded, hdecl, howned, h1e, hr]

/-- C7 witness: the overload of `A.l` on `B`, declared without the
`overloaded` keyword under a RefDict that requires it, is rejected with the
ancestors enumerated. -/
theorem C7_witness :
    validate_overloaded baseSchema { declarative := true } lbOwnedNoDecl
        strictRefdict none =
      .error (.schemaDefinitionError must_overloaded_msg
        (((lbOwnedNoDecl.bases.filterMap baseSchema.get).filter
          (fun b => !b.is_generic)).filterMap (·.subject))) :=
  (C7_validate_overloaded baseSchema { declarative := true } lbOwnedNoDecl
      strictRefdict none rfl rfl).1 ⟨by decide, rfl, rfl⟩

/-! ## C8 -/

/-- C8: when no frame matches the command class's referrer-command-context
class, `get_referrer_context` returns null and `get_referrer_context_or_die`
throws the internal invariant-violation error; when a matching frame
exists, the innermost such frame is returned (the stack lists the innermost
frame first). -/
theorem C8_get_referrer_context (c : String) (ctx : Context) :
    ((∀ f ∈ ctx.stack, f.ctx_class ≠ c) →
      get_referrer_context c ctx = none ∧
      get_referrer_context_or_die c ctx =
        .error (.invariantViolation "no referrer context")) ∧
    (∀ pre f post, ctx.stack = pre ++ f :: post → f.ctx_class = c →
      (∀ g ∈ pre, g.ctx_class ≠ c) →
      get_referrer_context c ctx = some f ∧
      get_referrer_context_or_die c ctx = .ok f) := by
  constructor
  · intro hall
    have hnone : get_referrer_context c ctx = none := by
      simp only [get_referrer_context, Context.get]
      exact List.find?_eq_none.mpr (fun f hf => by
        simp only [beq_iff_eq]
        exact hall f hf)
    exact ⟨hnone, by simp [get_referrer_context_or_die, hnone]⟩
  · intro pre f post hstack hf hpre
    have hsome : get_referrer_context c ctx = some f := by
      simp only [get_referrer_context, Context.get, hstack]
      clear hstack
      induction pre with
      | nil => simp [List.find?, hf]
      | cons hd tl ih =>
          have hhd : (hd.ctx_class == c) = false := by
            simp only [beq_eq_false_iff_ne, ne_eq]
            exact hpre hd (by simp)
          simp only [List.cons_append, List.find?, hhd]
          exact ih (fun g hg => hpre g (by simp [hg]))
    exact ⟨hsome, by simp [get_referrer_context_or_die, hsome]⟩

/-- C8 witness: a stack with a non-matching inner frame and a matching
outer frame; lookup skips the former and returns the latter, and a lookup
for an absent class errors out. -/
theorem C8_witness :
    (get_referrer_context "CreateLink"
        { stack := [{ ctx_class := "CreateProperty" }] } = none ∧
      get_referrer_context_or_die "CreateLink"
        { stack := [{ ctx_class := "CreateProperty" }] } =
        .error (.invariantViolation "no referrer context")) ∧
    (get_referrer_context "CreateType"
        { stack := [{ ctx_class := "CreateProperty" },
                    { ctx_class := "CreateType" }] } =
        some { ctx_class := "CreateType" } ∧
      get_referrer_context_or_die "CreateType"
        { stack := [{ ctx_class := "CreateProperty" },
                    { ctx_class := "CreateType" }] } =
        .ok { ctx_class := "CreateType" }) :=
  ⟨(C8_get_referrer_context "CreateLink"
      { stack := [{ ctx_class := "CreateProperty" }] }).1 (by decide),
   (C8_get_referrer_context "CreateType"
      { stack := [{ ctx_class := "CreateProperty" },
                  { ctx_class := "CreateType" }] }).2
      [{ ctx_class := "CreateProperty" }] { ctx_class := "CreateType" } []
      rfl rfl (by decide)⟩

/-! ## C10 -/

/-- C10: the explicit bases retained by `get_ref_implicit_base_delta` are
exactly the current bases that are generic and whose name differs from the
class's default base name; consequently a current base equal to the default
base that is not among the implicit bases lands in the removed component of
the computed delta (it is silently dropped from the target). -/
theorem C10_ref_implicit_base_delta (s : Schema) (refcls : Obj)
    (implicit_bases : List Obj) :
    (∀ b, b ∈ ref_explicit_bases s refcls ↔
      b ∈ refcls.bases.filterMap s.get ∧ b.is_generic = true ∧
        some b.name ≠ refcls.default_base_name) ∧
    (∀ b ∈ refcls.bases.filterMap s.get,
      some b.name = refcls.default_base_name →
      b.name ∉ implicit_bases.map (·.name) →
      b.name ∈ (get_ref_implicit_base_delta s refcls implicit_bases).1 ∧
      b.name ∉ ((implicit_bases ++ ref_explicit_bases s refcls).map (·.name))) := by
  constructor
  · intro b
    simp [ref_explicit_bases, List.mem_filter, and_assoc]
  · intro b hb hdef hnimp
    have hnexp : b.name ∉ (ref_explicit_bases s refcls).map (·.name) := by
      intro hmem
      rcases List.mem_map.mp hmem with ⟨e, he, hename⟩
      have : some e.name ≠ refcls.default_base_name := by
        simp only [ref_explicit_bases, List.mem_filter, Bool.and_eq_true,
          decide_eq_true_eq] at he
        exact he.2.2
      rw [hename] at this
      exact this hdef
    have hntarget :
        b.name ∉ ((implicit_bases ++ ref_explicit_bases s refcls).map (·.name)) := by
      simp only [List.map_append, List.mem_append]
      rintro (h | h)
      · exact hnimp h
      · exact hnexp h
    refine ⟨?_, hntarget⟩
    simp only [get_ref_implicit_base_delta, delta_bases]
    simp only [List.mem_filter, decide_eq_true_eq]
    exact ⟨List.mem_map_of_mem _ hb, by simpa using hntarget⟩

/-- C10 witness: with no implicit bases left, the delta computed for a ref
based only on its default base removes the default base. -/
theorem C10_witness :
    defObj.name ∈ (get_ref_implicit_base_delta c10Schema c10Ref []).1 ∧
    defObj.name ∉ ((([] : List Obj) ++ ref_explicit_bases c10Schema c10Ref).map (·.name)) :=
  (C10_ref_implicit_base_delta c10Schema c10Ref []).2 defObj (by decide)
    (by decide) (by decide)

/-! ## C4 and C9 -/

/-- C4: for a deletion with an inheriting referrer, `context.canonical`
false, not nested in a larger deletion and with dependency verification
enabled: if the remainder (implicit bases minus those being deleted on the
stack) is non-empty the deletion fails with the cannot-drop-inherited
schema error listing the inheriting parents; otherwise it proceeds. -/
theorem C4_delete_ref (s : Schema) (ctx : Context) (self_class : String)
    (refdict : RefDict) (referrer : Obj) (scls : Obj)
    (hinh : referrer.is_inheriting = true) (hcanon : ctx.canonical = false)
    (hdel : ctx.in_deletion_offset1 = false)
    (hdep : ctx.disable_dep_verification = false) :
    (remaining_implicit_bases s ctx self_class refdict referrer scls ≠ [] →
      delete_ref s ctx self_class refdict referrer scls =
        .error (.schemaError cannot_drop_inherited_msg
          ((remaining_implicit_bases s ctx self_class refdict referrer scls).filterMap
            (·.subject)))) ∧
    (remaining_implicit_bases s ctx self_class refdict referrer scls = [] →
      ∃ r, delete_ref s ctx self_class refdict referrer scls = .ok r) := by
  have hcond : (referrer.is_inheriting && !ctx.canonical) = true := by
    simp [hinh, hcanon]
  have hdc : (!ctx.in_deletion_offset1 && !ctx.disable_dep_verification) = true := by
    simp [hdel, hdep]
  constructor
  · intro hne
    have hne2 : (remaining_implicit_bases s ctx self_class refdict referrer
        scls).isEmpty = false := by
      rw [List.isEmpty_eq_false]; exact hne
    have herr : delete_dep_check
        (del_classref s referrer.name refdict.attr (get_key_for_name scls.name))
        ctx self_class refdict referrer scls.name =
        .error (.schemaError cannot_drop_inherited_msg
          ((remaining_implicit_bases s ctx self_class refdict referrer
            scls).filterMap (·.subject))) := by
      simp only [delete_dep_check, hdc, if_true]
      simp only [remaining_implicit_bases] at hne2 ⊢
      rw [hne2]
      rfl
    simp only [delete_ref, hcond, if_true, herr]
  · intro hnil
    have hne2 : (remaining_implicit_bases s ctx self_class refdict referrer
        scls).isEmpty = true := by
      simp [List.isEmpty_iff, hnil]
    have hok : delete_dep_check
        (del_classref s referrer.name refdict.attr (get_key_for_name scls.name))
        ctx self_class refdict referrer scls.name = .ok () := by
      simp only [delete_dep_check, hdc, if_true]
      simp only [remaining_implicit_bases] at hne2
      rw [hne2]
      rfl
    simp only [delete_ref, hcond, if_true, hok]
    exact ⟨_, rfl⟩

/-- C4 witness: dropping `B.l`, which is inherited from `A.l`, in an
ordinary context fails with the cannot-drop-inherited error naming `A`. -/
theorem C4_witness :
    delete_ref fullSchema {} "DeleteLink" linksRefdict bObjFull lbObj =
      .error (.schemaError cannot_drop_inherited_msg
        ((remaining_implicit_bases fullSchema {} "DeleteLink" linksRefdict
          bObjFull lbObj).filterMap (·.subject))) :=
  (C4_delete_ref fullSchema {} "DeleteLink" linksRefdict bObjFull lbObj
    rfl rfl rfl rfl).1 (by decide)

/-- A delete executed with either skip flag set never reaches the
dependency check. -/
theorem delete_ref_ok_of_skip (s : Schema) (ctx : Context) (self_class : String)
    (refdict : RefDict) (referrer : Obj) (scls : Obj)
    (h : ctx.in_deletion_offset1 = true ∨ ctx.disable_dep_verification = true) :
    ∃ r, delete_ref s ctx self_class refdict referrer scls = .ok r := by
  have hc : (!ctx.in_deletion_offset1 && !ctx.disable_dep_verification) = false := by
    rcases h with h | h <;> simp [h]
  have hok : ∀ s1 self_name,
      delete_dep_check s1 ctx self_class refdict referrer self_name = .ok () := by
    intro s1 self_name
    simp only [delete_dep_check, hc]
    rfl
  by_cases hcond : (referrer.is_inheriting && !ctx.canonical) = true
  · simp only [delete_ref, hcond, if_true, hok]
    exact ⟨_, rfl⟩
  · rw [Bool.not_eq_true] at hcond
    simp only [delete_ref, hcond, if_false]
    exact ⟨_, rfl⟩

/-- C9: the `ReferencedObject.delete` convenience entry point builds its
context with `disable_dep_verification` set, so deletions driven through it
always proceed; the cannot-drop-inherited check only fires for deletions
driven through an ordinary command context (both skip flags unset). -/
theorem C9_delete_entry_point :
    referenced_object_delete_context.disable_dep_verification = true ∧
    (∀ (s : Schema) (self_class : String) (refdict : RefDict) (referrer scls : Obj),
      ∃ r, delete_ref s referenced_object_delete_context self_class refdict
        referrer scls = .ok r) ∧
    (∀ (s : Schema) (ctx : Context) (self_class : String) (refdict : RefDict)
        (referrer scls : Obj) (msg : String) (parents : List Name),
      delete_ref s ctx self_class refdict referrer scls =
        .error (.schemaError msg parents) →
      ctx.disable_dep_verification = false ∧ ctx.in_deletion_offset1 = false) := by
  refine ⟨rfl, ?_, ?_⟩
  · intro s self_class refdict referrer scls
    exact delete_ref_ok_of_skip s referenced_object_delete_context self_class
      refdict referrer scls (Or.inr rfl)
  · intro s ctx self_class refdict referrer scls msg parents h
    constructor
    · by_contra hc
      rw [Bool.not_eq_false] at hc
      rcases delete_ref_ok_of_skip s ctx self_class refdict referrer scls
        (Or.inr hc) with ⟨r, hr⟩
      rw [hr] at h
      exact absurd h (by simp)
    · by_contra hc
      rw [Bool.not_eq_false] at hc
      rcases delete_ref_ok_of_skip s ctx self_class refdict referrer scls
        (Or.inl hc) with ⟨r, hr⟩
      rw [hr] at h
      exact absurd h (by simp)

/-- C9 witness: the same deletion of `B.l` that an ordinary context rejects
goes through under the entry-point context, and the theorem's converse is
exercised at the concrete erroring run. -/
theorem C9_witness :
    referenced_object_delete_context.disable_dep_verification = true ∧
    (∃ r, delete_ref fullSchema referenced_object_delete_context "DeleteLink"
      linksRefdict bObjFull lbObj = .ok r) ∧
    (Context.disable_dep_verification {} = false ∧
      Context.in_deletion_offset1 {} = false) :=
  ⟨C9_delete_entry_point.1,
   C9_delete_entry_point.2.1 fullSchema "DeleteLink" linksRefdict bObjFull lbObj,
   C9_delete_entry_point.2.2 fullSchema {} "DeleteLink" linksRefdict bObjFull
     lbObj cannot_drop_inherited_msg [aName] rfl⟩

/-! ## C2 -/

/-- C2: evaluation of `_propagate_ref_deletion` at a locally-owned child
ref (`B.l`, owned, while `A.l` is being deleted).  The engine emits an
alter on the child ref whose single subcommand is again an `AlterObject`
carrying the computed base deltas — not a `Rebase` command as the claim
(and the source's own comment "we need to do a rebase") requires — and the
child ref survives. -/
theorem C2_propagate_ref_deletion_alter_not_rebase :
    (propagate_ref_deletion delSchema {} linksRefdict bObjOwned lbOwnedObj).2.kind =
      CmdKind.alter ∧
    ((propagate_ref_deletion delSchema {} linksRefdict bObjOwned
      lbOwnedObj).2.subs.map Cmd.kind) = [CmdKind.alter] ∧
    (∀ sub ∈ (propagate_ref_deletion delSchema {} linksRefdict bObjOwned
      lbOwnedObj).2.subs, sub.kind ≠ CmdKind.rebase) ∧
    ((propagate_ref_deletion delSchema {} linksRefdict bObjOwned
      lbOwnedObj).2.subs.getD 0 default).removed_bases = [laName] ∧
    ((propagate_ref_deletion delSchema {} linksRefdict bObjOwned
      lbOwnedObj).2.subs.getD 0 default).added_bases = [] ∧
    (propagate_ref_deletion delSchema {} linksRefdict bObjOwned lbOwnedObj).1 =
      delSchema := by
  refine ⟨rfl, rfl, ?_, rfl, rfl, rfl⟩
  decide

/-! ## C3 -/

theorem filterMap_guard_eq {α β : Type} (p : α → Bool) (f : α → β) (l : List α) :
    l.filterMap (fun a => if !(p a) then none else some (f a)) =
      (l.filter p).map f := by
  induction l with
  | nil => rfl
  | cons hd tl ih =>
      cases h : p hd <;> simpa [List.filterMap_cons, List.filter_cons, h] using ih

/-- C3 counterexample: at a concrete propagated creation the synthesized
conditional create carries no `bases` attribute at all (the base
`as_inherited_ref_cmd` ignores its `parents` argument), so it does not
carry the parent ref as its sole base as the claim states. -/
theorem C3_counterexample :
    ((create_ref c3Schema c3Ctx laObj aObjEmpty linksRefdict).2.map Cmd.classname =
      [bName]) ∧
    ((((create_ref c3Schema c3Ctx laObj aObjEmpty linksRefdict).2.getD 0
        default).subs.getD 1 default).kind = CmdKind.create) ∧
    ((((create_ref c3Schema c3Ctx laObj aObjEmpty linksRefdict).2.getD 0
        default).subs.getD 1 default).if_not_exists = true) ∧
    ((((create_ref c3Schema c3Ctx laObj aObjEmpty linksRefdict).2.getD 0
        default).subs.getD 1 default).get_attribute_value "bases" = none) ∧
    ¬((((create_ref c3Schema c3Ctx laObj aObjEmpty linksRefdict).2.getD 0
        default).subs.getD 1 default).get_attribute_value "bases" =
      some (AttrVal.names [laObj.name])) := by
  refine ⟨rfl, rfl, rfl, rfl, ?_⟩
  decide

/-- C3 (amended): under the four guard conditions, creation is propagated
to exactly the children permitting it, each receiving an
`AlterObject(child)` holding, in order, a conditional alter (`if_exists`)
wrapping an implicit `Rebase` with empty base deltas, then a conditional
create (`if_not_exists`) whose attributes set the child-local name and the
backref to the child (plus `is_derived` for derived children) but no
`bases`; no propagation happens when a guard fails. -/
theorem C3_propagate_ref_creation (s : Schema) (ctx : Context) (scls : Obj)
    (referrer : Obj) (refdict : RefDict)
    (hname : refdict.backref_attr ≠ "name")
    (hbases : refdict.backref_attr ≠ "bases")
    (hder : refdict.backref_attr ≠ "is_derived") :
    (scls.is_final = false → referrer.is_inheriting = true →
      ctx.canonical = false → ctx.enable_recursion = true →
      (create_ref s ctx scls referrer refdict).2 =
        (((add_classref s referrer.name refdict.attr scls.name).children
          referrer).filter (fun child => child.allows_ref_propagation)).map
          (propagated_child_cmd scls refdict)) ∧
    (¬(scls.is_final = false ∧ referrer.is_inheriting = true ∧
        ctx.canonical = false ∧ ctx.enable_recursion = true) →
      (create_ref s ctx scls referrer refdict).2 = []) ∧
    (∀ child : Obj,
      (propagated_child_cmd scls refdict child).kind = CmdKind.alter ∧
      (propagated_child_cmd scls refdict child).classname = child.name ∧
      ((propagated_child_cmd scls refdict child).subs.map (fun sub =>
        (sub.kind, sub.classname, sub.if_exists, sub.if_not_exists))) =
        [(CmdKind.alter, classname_from_name scls.name child.name, true, false),
         (CmdKind.create, classname_from_name scls.name child.name, false, true)] ∧
      (((propagated_child_cmd scls refdict child).subs.getD 0 default).subs.map
        (fun rc => (rc.kind, rc.implicit, rc.added_bases, rc.removed_bases))) =
        [(CmdKind.rebase, true, [], [])] ∧
      ((propagated_child_cmd scls refdict child).subs.getD 1
          default).get_attribute_value "name" =
        some (.name (classname_from_name scls.name child.name)) ∧
      ((propagated_child_cmd scls refdict child).subs.getD 1
          default).get_attribute_value refdict.backref_attr =
        some (.name child.name) ∧
      ((propagated_child_cmd scls refdict child).subs.getD 1
          default).get_attribute_value "bases" = none ∧
      ((propagated_child_cmd scls refdict child).subs.getD 1
          default).get_attribute_value "is_derived" =
        (if child.is_derived then some (.bool true) else none)) := by
  have hb1 : (("name" : String) == refdict.backref_attr) = false :=
    beq_eq_false_iff_ne.mpr (fun h => hname h.symm)
  have hb2 : (refdict.backref_attr == "name") = false :=
    beq_eq_false_iff_ne.mpr hname
  have hb3 : (("bases" : String) == refdict.backref_attr) = false :=
    beq_eq_false_iff_ne.mpr (fun h => hbases h.symm)
  have hb4 : (("is_derived" : String) == refdict.backref_attr) = false :=
    beq_eq_false_iff_ne.mpr (fun h => hder h.symm)
  have hb5 : (refdict.backref_attr == "is_derived") = false :=
    beq_eq_false_iff_ne.mpr hder
  refine ⟨?_, ?_, ?_⟩
  · intro hfin hinh hcanon hrec
    have hcond : (!scls.is_final && referrer.is_inheriting && !ctx.canonical
        && ctx.enable_recursion) = true := by
      simp [hfin, hinh, hcanon, hrec]
    simp only [create_ref, hcond, if_true, propagate_ref_creation]
    exact filterMap_guard_eq _ _ _
  · intro hng
    have hcond : (!scls.is_final && referrer.is_inheriting && !ctx.canonical
        && ctx.enable_recursion) = false := by
      by_contra hc
      rw [Bool.not_eq_false] at hc
      simp only [Bool.and_eq_true, Bool.not_eq_true'] at hc
      obtain ⟨⟨⟨h1, h2⟩, h3⟩, h4⟩ := hc
      exact hng ⟨h1, h2, h3, h4⟩
    simp only [create_ref, hcond, if_false]
    rfl
  · intro child
    cases hd : child.is_derived <;>
      simp [propagated_child_cmd, as_inherited_ref_cmd, Cmd.simple,
        Cmd.set_attribute_value, set_attr_list, Cmd.add, Cmd.get_attribute_value,
        Cmd.kind, Cmd.classname, Cmd.if_exists, Cmd.if_not_exists, Cmd.implicit,
        Cmd.added_bases, Cmd.removed_bases, Cmd.subs, Cmd.attrs, List.lookup,
        hd, hb1, hb2, hb3, hb4, hb5]

/-- C3 witness for the amended claim: the propagation at the concrete
sample produces exactly the per-child command groups, and the child group
for `B` has the claimed shape. -/
theorem C3_witness :
    (create_ref c3Schema c3Ctx laObj aObjEmpty linksRefdict).2 =
      (((add_classref c3Schema aObjEmpty.name "links" laObj.name).children
        aObjEmpty).filter (fun child => child.allows_ref_propagation)).map
        (propagated_child_cmd laObj linksRefdict) ∧
    ((propagated_child_cmd laObj linksRefdict bObj).subs.map (fun sub =>
      (sub.kind, sub.classname, sub.if_exists, sub.if_not_exists))) =
      [(CmdKind.alter, classname_from_name laObj.name bObj.name, true, false),
       (CmdKind.create, classname_from_name laObj.name bObj.name, false, true)] :=
  ⟨(C3_propagate_ref_creation c3Schema c3Ctx laObj aObjEmpty linksRefdict
      (by decide) (by decide) (by decide)).1 rfl rfl rfl rfl,
   ((C3_propagate_ref_creation c3Schema c3Ctx laObj aObjEmpty linksRefdict
      (by decide) (by decide) (by decide)).2.2 bObj).2.2.1⟩

/-! ## C5 -/

/-- C5 counterexample: a rename executed (canonical false, non-generic ref,
no non-renamed implicit bases) while an enclosing referenced-inheriting
command frame is marked `ref_op_propagated` succeeds but emits no
propagation command at all, even though an ordered descendant exists. -/
theorem C5_counterexample :
    propCtx.canonical = false ∧ c5Scls.is_generic = false ∧
    (Obj.implicit_bases_of renSchema c5Scls).filter
      (fun b => decide (b.name ∉ propCtx.renamed_objs)) = [] ∧
    rename_begin renSchema propCtx c5Scls [lcObj] = .ok [] ∧
    [lcObj] ≠ ([] : List Obj) := by
  refine ⟨rfl, rfl, by decide, rfl, by decide⟩

/-- C5 (amended): for a rename with `context.canonical` false on a
non-generic ref: implicit bases outside `renamed_objs` fail the rename
with the cannot-rename-inherited error enumerating them; otherwise the
rename succeeds and — unless an enclosing referenced-inheriting command
frame is already marked `ref_op_propagated` (the recursion guard, under
which nothing is emitted) — it is propagated to every ordered descendant
via `AlterObject(descendant_referrer)` wrapping `AlterObject(descendant_ref)`
wrapping a `Rename` to the new short name. -/
theorem C5_rename_begin (s : Schema) (ctx : Context) (scls : Obj)
    (descendants : List Obj)
    (hcanon : ctx.canonical = false) (hgen : scls.is_generic = false) :
    ((Obj.implicit_bases_of s scls).filter
        (fun b => decide (b.name ∉ ctx.renamed_objs)) ≠ [] →
      rename_begin s ctx scls descendants =
        .error (.schemaDefinitionError cannot_rename_inherited_msg
          (((Obj.implicit_bases_of s scls).filter
            (fun b => decide (b.name ∉ ctx.renamed_objs))).map (·.name)))) ∧
    ((Obj.implicit_bases_of s scls).filter
        (fun b => decide (b.name ∉ ctx.renamed_objs)) = [] →
      (ctx.stack.any (fun f => f.op_is_referenced_inheriting &&
          f.ref_op_propagated) = true →
        rename_begin s ctx scls descendants = .ok []) ∧
      (ctx.stack.any (fun f => f.op_is_referenced_inheriting &&
          f.ref_op_propagated) = false →
        rename_begin s ctx scls descendants =
          .ok (descendants.filterMap (fun d =>
            match d.subject.bind s.get with
            | some dr => some (rename_descendant_cmd
                (get_key_for_name scls.name) d dr.name)
            | none => none)))) ∧
    (∀ (new_refname : Name) (d : Obj) (rn : Name),
      (rename_descendant_cmd new_refname d rn).kind = CmdKind.alter ∧
      (rename_descendant_cmd new_refname d rn).classname = rn ∧
      ((rename_descendant_cmd new_refname d rn).subs.map (fun ic =>
        (ic.kind, ic.classname, ic.ref_op_propagated,
          ic.subs.map (fun rc =>
            (rc.kind, rc.classname, rc.get_attribute_value "new_name"))))) =
        [(CmdKind.alter, d.name, true,
          [(CmdKind.rename, d.name, some (AttrVal.name new_refname))])]) := by
  have hcond : (!ctx.canonical && !scls.is_generic) = true := by
    simp [hcanon, hgen]
  refine ⟨?_, ?_, ?_⟩
  · intro hne
    have hne2 : ((Obj.implicit_bases_of s scls).filter
        (fun b => decide (b.name ∉ ctx.renamed_objs))).isEmpty = false := by
      rw [List.isEmpty_eq_false]; exact hne
    simp only [rename_begin, hcond, if_true, hne2]
    rfl
  · intro hnil
    have hne2 : ((Obj.implicit_bases_of s scls).filter
        (fun b => decide (b.name ∉ ctx.renamed_objs))).isEmpty = true := by
      rw [List.isEmpty_iff]; exact hnil
    constructor
    · intro hprop
      simp only [rename_begin, hcond, if_true, hne2, propagate_ref_op_rename,
        hprop]
      rfl
    · intro hprop
      simp only [rename_begin, hcond, if_true, hne2, propagate_ref_op_rename,
        hprop]
      rfl
  · intro new_refname d rn
    exact ⟨rfl, rfl, rfl⟩

/-- C5 witness: renaming `B.l`, inherited from `A.l` which is not in
`renamed_objs`, fails enumerating `A.l`. -/
theorem C5_witness :
    rename_begin fullSchema {} lbObj [] =
      .error (.schemaDefinitionError cannot_rename_inherited_msg
        (((Obj.implicit_bases_of fullSchema lbObj).filter
          (fun b => decide (b.name ∉ Context.renamed_objs {}))).map (·.name))) :=
  (C5_rename_begin fullSchema {} lbObj [] rfl rfl).1 (by decide)

/-! ## C6 supporting lemmas

The `_drop_owned_refs` loop applies each nested `AlterOwned` immediately,
so the schema is threaded through the walk.  The applied changes flip
`is_owned` and rewrite `fields`, which never feeds back into the loop's
own branch decisions; the lemmas below make that precise via the shape
projection (name, bases, generic flag, collections), which every applied
change preserves. -/

theorem get_name_of_get (s : Schema) (n : Name) (o : Obj)
    (h : s.get n = some o) : o.name = n := by
  simp only [Schema.get] at h
  have := List.find?_some h
  simpa using this

theorem get_modify (s : Schema) (n : Name) (f : Obj → Obj)
    (hf : ∀ o, (f o).name = o.name) (m : Name) :
    (s.modify n f).get m =
      (s.get m).map (fun o => if o.name = n then f o else o) := by
  rcases s with ⟨objs⟩
  simp only [Schema.modify, Schema.get]
  induction objs with
  | nil => rfl
  | cons hd tl ih =>
      simp only [List.map_cons]
      have hgname : (if hd.name = n then f hd else hd).name = hd.name := by
        by_cases hn : hd.name = n <;> simp [hn, hf]
      by_cases hm : hd.name = m
      · rw [List.find?_cons_of_pos _ (by rw [hgname]; simp [hm]),
          List.find?_cons_of_pos _ (by simp [hm])]
        simp
      · rw [List.find?_cons_of_neg _ (by rw [hgname]; simp [hm]),
          List.find?_cons_of_neg _ (by simp [hm])]
        exact ih

theorem get_modify_ne (s : Schema) (n : Name) (f : Obj → Obj)
    (hf : ∀ o, (f o).name = o.name) (m : Name) (hm : m ≠ n) :
    (s.modify n f).get m = s.get m := by
  rw [get_modify s n f hf m]
  cases hg : s.get m with
  | none => rfl
  | some o =>
      have ho : o.name = m := get_name_of_get s m o hg
      simp [Option.map, ho, hm]

theorem get_modify_shape (s : Schema) (n : Name) (f : Obj → Obj)
    (hf : ∀ o, (f o).name = o.name)
    (hsh : ∀ o, obj_shape (f o) = obj_shape o) (m : Name) :
    ((s.modify n f).get m).map obj_shape = (s.get m).map obj_shape := by
  rw [get_modify s n f hf m]
  cases s.get m with
  | none => rfl
  | some o =>
      simp only [Option.map]
      by_cases hn : o.name = n <;> simp [hn, hsh]

theorem inherit_fields_get_ne (s : Schema) (nm : Name) (bases : List Obj)
    (il : Bool) (m : Name) (hm : m ≠ nm) :
    (inherit_fields s nm bases il).get m = s.get m := by
  unfold inherit_fields
  exact get_modify_ne _ _ _ (fun o => by dsimp only; split <;> rfl) _ hm

theorem inherit_fields_shape (s : Schema) (nm : Name) (bases : List Obj)
    (il : Bool) (m : Name) :
    ((inherit_fields s nm bases il).get m).map obj_shape =
      (s.get m).map obj_shape := by
  unfold inherit_fields
  exact get_modify_shape _ _ _ (fun o => by dsimp only; split <;> rfl)
    (fun o => by dsimp only; split <;> rfl) m

theorem inherit_fields_get_self (s : Schema) (nm : Name) (bases : List Obj) :
    (inherit_fields s nm bases true).get nm =
      (s.get nm).map (fun o => { o with fields := inherited_fields bases }) := by
  unfold inherit_fields
  rw [get_modify _ _ _ (fun o => by dsimp only; split <;> rfl) nm]
  cases hg : s.get nm with
  | none => rfl
  | some o =>
      have ho := get_name_of_get s nm o hg
      simp [Option.map, ho]

theorem apply_drop_owned_get_ne (s : Schema) (p m : Name) (hm : m ≠ p) :
    (apply_drop_owned s p).get m = s.get m := by
  unfold apply_drop_owned
  cases hg : s.get p with
  | none => rfl
  | some ref =>
      show ((inherit_fields s p (ref.bases.filterMap s.get) true).modify p
        (fun o => { o with is_owned := false })).get m = s.get m
      rw [get_modify_ne (inherit_fields s p (ref.bases.filterMap s.get) true) p
        (fun o => { o with is_owned := false }) (fun o => rfl) m hm,
        inherit_fields_get_ne _ _ _ _ m hm]

theorem apply_drop_owned_shape (s : Schema) (p m : Name) :
    ((apply_drop_owned s p).get m).map obj_shape = (s.get m).map obj_shape := by
  unfold apply_drop_owned
  cases hg : s.get p with
  | none => rfl
  | some ref =>
      show (((inherit_fields s p (ref.bases.filterMap s.get) true).modify p
        (fun o => { o with is_owned := false })).get m).map obj_shape =
        (s.get m).map obj_shape
      rw [get_modify_shape (inherit_fields s p (ref.bases.filterMap s.get) true) p
        (fun o => { o with is_owned := false }) (fun o => rfl) (fun o => rfl) m,
        inherit_fields_shape]

theorem isEmpty_of_length_eq {α : Type} (t u : List α)
    (h : t.length = u.length) : t.isEmpty = u.isEmpty := by
  cases t <;> cases u <;> simp_all

theorem implicit_isEmpty_congr (s s2 : Schema)
    (hsh : ∀ m, (s2.get m).map obj_shape = (s.get m).map obj_shape)
    (ref : Obj) :
    (Obj.implicit_bases_of s2 ref).isEmpty =
      (Obj.implicit_bases_of s ref).isEmpty := by
  apply isEmpty_of_length_eq
  unfold Obj.implicit_bases_of
  generalize ref.bases = bs
  induction bs with
  | nil => rfl
  | cons b bs ih =>
      have hb := hsh b
      simp only [List.filterMap_cons]
      cases hg2 : s2.get b with
      | none =>
          cases hg : s.get b with
          | none => exact ih
          | some o =>
              rw [hg2, hg] at hb
              exact absurd hb (by simp)
      | some o2 =>
          cases hg : s.get b with
          | none =>
              rw [hg2, hg] at hb
              exact absurd hb (by simp)
          | some o =>
              rw [hg2, hg] at hb
              have h4 : o2.name = o.name ∧ o2.bases = o.bases ∧
                  o2.is_generic = o.is_generic ∧ o2.refcolls = o.refcolls := by
                simpa [obj_shape, Prod.ext_iff] using hb
              simp only [List.filter_cons, h4.2.2.1]
              cases hgog : o.is_generic <;> simp [ih]

theorem drop_decision_congr (s s2 : Schema)
    (hsh : ∀ m, (s2.get m).map obj_shape = (s.get m).map obj_shape)
    (rn : Name) (hrn : s2.get rn = s.get rn) :
    drop_decision s2 rn = drop_decision s rn := by
  unfold drop_decision
  rw [hrn]
  cases hg : s.get rn with
  | none => rfl
  | some ref => simp [implicit_isEmpty_congr s s2 hsh ref]

/-- Walking one collection with `drop_owned_step` emits, for each entry in
order, exactly the command its decision in the pre-walk schema dictates;
the walk preserves object shapes everywhere and touches only entries of
the collection. -/
theorem drop_coll_fold (s : Schema) (coll : List Name) :
    ∀ (scur : Schema) (acc : List Cmd),
    (∀ m, (scur.get m).map obj_shape = (s.get m).map obj_shape) →
    (∀ rn ∈ coll, scur.get rn = s.get rn) →
    coll.Nodup →
    (coll.foldl drop_owned_step (scur, acc)).2 =
        acc ++ coll.filterMap (drop_cmd_of s) ∧
    (∀ m, ((coll.foldl drop_owned_step (scur, acc)).1.get m).map obj_shape =
        (s.get m).map obj_shape) ∧
    (∀ m, m ∉ coll →
        (coll.foldl drop_owned_step (scur, acc)).1.get m = scur.get m) := by
  induction coll with
  | nil =>
      intro scur acc hsh hrn hnd
      exact ⟨by simp, hsh, fun m _ => rfl⟩
  | cons hd tl ih =>
      intro scur acc hsh hrn hnd
      obtain ⟨hhdtl, hndtl⟩ := List.nodup_cons.mp hnd
      have hhd : scur.get hd = s.get hd := hrn hd (by simp)
      rw [List.foldl_cons]
      cases hg : s.get hd with
      | none =>
          have hstep : drop_owned_step (scur, acc) hd = (scur, acc) := by
            simp only [drop_owned_step, hhd, hg]
          have hcmd : drop_cmd_of s hd = none := by
            simp [drop_cmd_of, drop_decision, hg]
          rw [hstep]
          obtain ⟨ih1, ih2, ih3⟩ :=
            ih scur acc hsh (fun rn h => hrn rn (by simp [h])) hndtl
          refine ⟨?_, ih2, ?_⟩
          · rw [ih1, List.filterMap_cons, hcmd]
          · intro m hm
            exact ih3 m (fun hmem => hm (by simp [hmem]))
      | some ref =>
          have hrefname : ref.name = hd := get_name_of_get s hd ref hg
          have hie : (Obj.implicit_bases_of scur ref).isEmpty =
              (Obj.implicit_bases_of s ref).isEmpty :=
            implicit_isEmpty_congr s scur hsh ref
          cases hb : (!(Obj.implicit_bases_of s ref).isEmpty && ref.is_owned) with
          | true =>
              have hstep : drop_owned_step (scur, acc) hd =
                  (apply_drop_owned scur hd,
                   acc ++ [(Cmd.simple .alter hd).add
                     ((Cmd.simple .alter_owned hd).set_attribute_value
                       "is_owned" (.bool false))]) := by
                simp only [drop_owned_step, hhd, hg]
                rw [hie, hb]
                simp [hrefname]
              have hcmd : drop_cmd_of s hd =
                  some ((Cmd.simple .alter hd).add
                    ((Cmd.simple .alter_owned hd).set_attribute_value
                      "is_owned" (.bool false))) := by
                simp [drop_cmd_of, drop_decision, hg, hb]
              rw [hstep]
              have hsh2 : ∀ m, ((apply_drop_owned scur hd).get m).map obj_shape =
                  (s.get m).map obj_shape := fun m => by
                rw [apply_drop_owned_shape]; exact hsh m
              have hrn2 : ∀ rn ∈ tl,
                  (apply_drop_owned scur hd).get rn = s.get rn := by
                intro rn hrntl
                have hne : rn ≠ hd := fun he => hhdtl (he ▸ hrntl)
                rw [apply_drop_owned_get_ne scur hd rn hne]
                exact hrn rn (by simp [hrntl])
              obtain ⟨ih1, ih2, ih3⟩ :=
                ih (apply_drop_owned scur hd) _ hsh2 hrn2 hndtl
              refine ⟨?_, ih2, ?_⟩
              · rw [ih1, List.filterMap_cons, hcmd]
                simp
              · intro m hm
                have hm1 : m ∉ tl := fun h => hm (by simp [h])
                have hm2 : m ≠ hd := fun h => hm (by simp [h])
                rw [ih3 m hm1, apply_drop_owned_get_ne scur hd m hm2]
          | false =>
              have hstep : drop_owned_step (scur, acc) hd =
                  (scur, acc ++ [Cmd.simple .delete hd]) := by
                simp only [drop_owned_step, hhd, hg]
                rw [hie, hb]
                simp [hrefname]
              have hcmd : drop_cmd_of s hd = some (Cmd.simple .delete hd) := by
                simp [drop_cmd_of, drop_decision, hg, hb]
              rw [hstep]
              obtain ⟨ih1, ih2, ih3⟩ :=
                ih scur _ hsh (fun rn h => hrn rn (by simp [h])) hndtl
              refine ⟨?_, ih2, ?_⟩
              · rw [ih1, List.filterMap_cons, hcmd]
                simp
              · intro m hm
                exact ih3 m (fun hmem => hm (by simp [hmem]))

/-- Walking the RefDicts with `drop_attr_step` concatenates, per RefDict,
the commands dictated by the pre-walk schema, provided no collection entry
repeats across the RefDicts. -/
theorem drop_attrs_fold (s : Schema) (scls : Obj)
    (hget0 : s.get scls.name = some scls) (attrs : List String) :
    ∀ (scur : Schema) (acc : List Cmd),
    (∀ m, (scur.get m).map obj_shape = (s.get m).map obj_shape) →
    (∀ rn, rn ∈ (attrs.map (fun a => scls.getcoll a)).flatten →
      scur.get rn = s.get rn) →
    ((attrs.map (fun a => scls.getcoll a)).flatten).Nodup →
    (attrs.foldl (drop_attr_step scls.name) (scur, acc)).2 =
        acc ++ (attrs.map (fun a =>
          (scls.getcoll a).filterMap (drop_cmd_of s))).flatten ∧
    (∀ m, ((attrs.foldl (drop_attr_step scls.name) (scur, acc)).1.get m).map
        obj_shape = (s.get m).map obj_shape) ∧
    (∀ m, m ∉ (attrs.map (fun a => scls.getcoll a)).flatten →
        (attrs.foldl (drop_attr_step scls.name) (scur, acc)).1.get m =
          scur.get m) := by
  induction attrs with
  | nil =>
      intro scur acc hsh hrn hnd
      exact ⟨by simp, hsh, fun m _ => rfl⟩
  | cons a attrs ih =>
      intro scur acc hsh hrn hnd
      have hs0 := hsh scls.name
      rw [hget0] at hs0
      cases hg' : scur.get scls.name with
      | none =>
          rw [hg'] at hs0
          exact absurd hs0 (by simp)
      | some o' =>
          rw [hg'] at hs0
          have h4 : o'.name = scls.name ∧ o'.bases = scls.bases ∧
              o'.is_generic = scls.is_generic ∧ o'.refcolls = scls.refcolls := by
            simpa [obj_shape, Prod.ext_iff] using hs0
          have hcoll : o'.getcoll a = scls.getcoll a := by
            unfold Obj.getcoll
            rw [h4.2.2.2]
          have hrn_a : ∀ rn ∈ scls.getcoll a, scur.get rn = s.get rn := by
            intro rn hrna
            exact hrn rn (by simp [List.flatten_cons, hrna])
          have hnd' : (scls.getcoll a ++
              (attrs.map (fun x => scls.getcoll x)).flatten).Nodup := by
            simpa [List.flatten_cons] using hnd
          obtain ⟨hnda, hndrest, hdisj⟩ := List.nodup_append.mp hnd'
          obtain ⟨hc1, hc2, hc3⟩ :=
            drop_coll_fold s (scls.getcoll a) scur [] hsh hrn_a hnda
          have hstep : drop_attr_step scls.name (scur, acc) a =
              (((scls.getcoll a).foldl drop_owned_step (scur, [])).1,
               acc ++ ((scls.getcoll a).foldl drop_owned_step (scur, [])).2) := by
            simp only [drop_attr_step, drop_owned_refs, hg', hcoll]
          rw [List.foldl_cons, hstep]
          have hrn2 : ∀ rn,
              rn ∈ (attrs.map (fun x => scls.getcoll x)).flatten →
              ((scls.getcoll a).foldl drop_owned_step (scur, [])).1.get rn =
                s.get rn := by
            intro rn hrnrest
            rw [hc3 rn (fun hin => hdisj hin hrnrest)]
            exact hrn rn (by simp [List.flatten_cons, hrnrest])
          obtain ⟨ih1, ih2, ih3⟩ := ih
            ((scls.getcoll a).foldl drop_owned_step (scur, [])).1
            (acc ++ ((scls.getcoll a).foldl drop_owned_step (scur, [])).2)
            hc2 hrn2 hndrest
          refine ⟨?_, ih2, ?_⟩
          · rw [ih1, hc1]
            simp [List.flatten_cons]
          · intro m hm
            have hmrest : m ∉ (attrs.map (fun x => scls.getcoll x)).flatten :=
              fun h => hm (by simp [List.flatten_cons, h])
            have hma : m ∉ scls.getcoll a :=
              fun h => hm (by simp [List.flatten_cons, h])
            rw [ih3 m hmrest, hc3 m hma]

/-! ## C6 -/

/-- C6: an `AlterOwned` flipping `is_owned` from true to false with
`context.canonical` false: without implicit bases it fails with the
invalid-definition error; with implicit bases it succeeds, the object's
fields become exactly the inherited values (locally-set values discarded,
`ignore_local`), and per RefDict each sub-ref that is inherited-and-owned
gets an alter wrapping a nested `AlterOwned(false)` while every other
sub-ref gets a `DeleteObject`. -/
theorem C6_alter_owned_begin (s : Schema) (ctx : Context) (scls : Obj)
    (refdict_attrs : List String)
    (hget : s.get scls.name = some scls)
    (hcanon : ctx.canonical = false)
    (hself : ∀ attr ∈ refdict_attrs, scls.name ∉ scls.getcoll attr)
    (hnodup : ((refdict_attrs.map (fun attr => scls.getcoll attr)).flatten).Nodup) :
    (Obj.implicit_bases_of s scls = [] →
      alter_owned_begin s ctx scls.name true false refdict_attrs =
        .error (.invalidDefinitionError cannot_drop_owned_msg)) ∧
    (Obj.implicit_bases_of s scls ≠ [] →
      ∃ s2 cmds,
        alter_owned_begin s ctx scls.name true false refdict_attrs =
          .ok (s2, cmds) ∧
        (s2.get scls.name).map (fun o => o.fields) =
          some (inherited_fields (scls.bases.filterMap s.get)) ∧
        cmds = (refdict_attrs.map (fun attr =>
          (scls.getcoll attr).filterMap (drop_cmd_of s))).flatten) := by
  have hcond : ((true != false) && !false && !ctx.canonical) = true := by
    simp [hcanon]
  constructor
  · intro himp
    have hie : (Obj.implicit_bases_of s scls).isEmpty = true := by
      rw [List.isEmpty_iff]; exact himp
    simp only [alter_owned_begin, hcond, if_true, hget, hie]
  · intro himp
    have hie : (Obj.implicit_bases_of s scls).isEmpty = false := by
      rw [List.isEmpty_eq_false]; exact himp
    have hsh1 : ∀ m, ((inherit_fields s scls.name (scls.bases.filterMap s.get)
        true).get m).map obj_shape = (s.get m).map obj_shape :=
      fun m => inherit_fields_shape s scls.name _ true m
    have hrn1 : ∀ rn,
        rn ∈ (refdict_attrs.map (fun a => scls.getcoll a)).flatten →
        (inherit_fields s scls.name (scls.bases.filterMap s.get) true).get rn =
          s.get rn := by
      intro rn hrnmem
      rcases List.mem_flatten.mp hrnmem with ⟨l, hl, hrnl⟩
      rcases List.mem_map.mp hl with ⟨a, ha, hal⟩
      have hne : rn ≠ scls.name := by
        intro he
        exact hself a ha (by rw [hal]; exact he ▸ hrnl)
      exact inherit_fields_get_ne s scls.name _ true rn hne
    obtain ⟨hf1, hf2, hf3⟩ := drop_attrs_fold s scls hget refdict_attrs
      (inherit_fields s scls.name (scls.bases.filterMap s.get) true) []
      hsh1 hrn1 hnodup
    refine ⟨(refdict_attrs.foldl (drop_attr_step scls.name)
        (inherit_fields s scls.name (scls.bases.filterMap s.get) true, [])).1,
      (refdict_attrs.foldl (drop_attr_step scls.name)
        (inherit_fields s scls.name (scls.bases.filterMap s.get) true, [])).2,
      ?_, ?_, ?_⟩
    · simp only [alter_owned_begin, hcond, if_true, hget, hie]
      rfl
    · have hnotin : scls.name ∉
          (refdict_attrs.map (fun a => scls.getcoll a)).flatten := by
        intro hmem
        rcases List.mem_flatten.mp hmem with ⟨l, hl, hin⟩
        rcases List.mem_map.mp hl with ⟨a, ha, hal⟩
        exact hself a ha (by rw [hal]; exact hin)
      rw [hf3 scls.name hnotin, inherit_fields_get_self s scls.name _, hget]
      rfl
    · simpa using hf1

/-- C6 witness: dropping ownership of `B.pA` re-inherits its fields from
`A.pA` and processes its sub-refs (`k1` is inherited-and-owned, `k2` is
not). -/
theorem C6_witness :
    ∃ s2 cmds,
      alter_owned_begin c6Schema {} pbObj.name true false ["constraints"] =
        .ok (s2, cmds) ∧
      (s2.get pbObj.name).map (fun o => o.fields) =
        some (inherited_fields (pbObj.bases.filterMap c6Schema.get)) ∧
      cmds = (["constraints"].map (fun attr =>
        (pbObj.getcoll attr).filterMap (drop_cmd_of c6Schema))).flatten :=
  (C6_alter_owned_begin c6Schema {} pbObj ["constraints"] rfl rfl
    (by decide) (by decide)).2 (by decide)

end Referencing
